import Mathlib

/-!
Verification of the bcrypto cryptographic core against its specification.

Part 1: the cipher-mode framework of `lib/js/ciphers/modes.js`.
Buffers are modelled as `List ℕ` of byte values; the streaming state of a
mode object is a `CipherState`.  The external keyed block-cipher context
(`ctx` with `encrypt`/`decrypt`/`destroy`) is passed in as per-block
functions `E`/`D`; its liveness is tracked by the `ctxAlive` flag.
-/

/-- Streaming state shared by every mode (the fields of class `Cipher`):
`bpos = none` models the source's `bpos == -1`; `last` is the held-back
output of padding deciphers; `m` is the mode-specific state (the `prev`,
`ctr` or `state` fields of the subclasses); `ctxAlive` records whether
`ctx.destroy()` has been called on the underlying primitive context. -/
structure CipherState (σ : Type) where
  ctxAlive : Bool
  block : List ℕ
  bpos : Option ℕ
  last : List ℕ
  m : σ

/-- Byte-wise XOR of two blocks (`output[i] = input[i] ^ state[i]`). -/
def xorBlock (a b : List ℕ) : List ℕ :=
  List.zipWith Nat.xor a b

/-- The whole-block loop of `Cipher.update` (`while (ilen >= bs)`), run for
`k` iterations; `upd` is the subclass `_update` on a single block. -/
def runBlocks {σ : Type} (upd : σ → List ℕ → List ℕ × σ) (bs : ℕ) :
    ℕ → σ → List ℕ → List ℕ × σ
  | 0, s, _ => ([], s)
  | k + 1, s, inp =>
    let r1 := upd s (inp.take bs)
    let r2 := runBlocks upd bs k r1.2 (inp.drop bs)
    (r1.1 ++ r2.1, r2.2)

/-- `Cipher.prototype.update` of modes.js, translated over list values.
`upd` is the subclass `_update`; `padding` is the constructor flag.  The
source allocates the output with `Buffer.allocUnsafe(olen)` where
`olen = ilen - ilen % bs (+ bs)` and may write fewer than `olen` bytes;
the never-written (uninitialized) suffix is modelled as zero bytes. -/
def Cipher.update {σ : Type} (upd : σ → List ℕ → List ℕ × σ) (padding : Bool)
    (bs : ℕ) (st : CipherState σ) (input : List ℕ) :
    Except String (List ℕ × CipherState σ) :=
  match st.bpos with
  | none => .error "Cipher not initialized."
  | some bpos0 =>
    let ilen := input.length
    let nbpos := (bpos0 + ilen) % bs
    if bpos0 > 0 then
      let want := min (bs - bpos0) ilen
      let block1 := st.block.take bpos0 ++ input.take want ++ st.block.drop (bpos0 + want)
      if bpos0 + want < bs then
        .ok ([], { st with block := block1, bpos := some nbpos })
      else
        let rest := input.drop want
        let r0 := upd st.m block1
        let k := rest.length / bs
        let rs := runBlocks upd bs k r0.2 rest
        let rem := rest.drop (k * bs)
        let olen := ilen - ilen % bs + bs
        let written := r0.1 ++ rs.1
        let output := written ++ List.replicate (olen - written.length) 0
        let st1 : CipherState σ :=
          { st with block := rem ++ block1.drop rem.length, bpos := some nbpos, m := rs.2 }
        if padding then .ok (output.take (output.length - bs), { st1 with last := output })
        else .ok (output, st1)
    else
      let k := ilen / bs
      let rs := runBlocks upd bs k st.m input
      let rem := input.drop (k * bs)
      let olen := ilen - ilen % bs
      let output := rs.1 ++ List.replicate (olen - rs.1.length) 0
      let st1 : CipherState σ :=
        { st with block := rem ++ st.block.drop rem.length, bpos := some nbpos, m := rs.2 }
      if padding then .ok (output.take (output.length - bs), { st1 with last := output })
      else .ok (output, st1)

/-- `Cipher.prototype.final`: the `try { ret = this._final() } finally`
block always destroys the context, zero-fills the block buffer and resets
`bpos` to -1 and `last` to empty, whatever `_final` returns or throws.
`fin` is the subclass `_final`, returning its result together with the
mode state it leaves behind. -/
def Cipher.final {σ : Type} (fin : CipherState σ → Except String (List ℕ) × σ)
    (st : CipherState σ) : Except String (List ℕ) × CipherState σ :=
  match st.bpos with
  | none => (.error "Cipher not initialized.", st)
  | some _ =>
    ((fin st).1,
      { ctxAlive := false, block := st.block.map (fun _ => 0), bpos := none,
        last := [], m := (fin st).2 })

/-- Mode state of `BlockCipher`/`BlockDecipher`: the chaining block `prev`
(`ppos` is folded into the value of the referenced block). -/
structure ChainState where
  prev : List ℕ

/-- `BlockCipher.prototype._update` (ECB when `chain = false`, CBC when
`chain = true`); `E` is the keyed single-block encryption of the external
cipher context. -/
def BlockCipher.upd (E : List ℕ → List ℕ) (chain : Bool) (s : ChainState)
    (inb : List ℕ) : List ℕ × ChainState :=
  if chain then
    let c := E (xorBlock inb s.prev)
    (c, ⟨c⟩)
  else
    (E inb, s)

/-- `BlockDecipher.prototype._update`; `D` is the keyed single-block
decryption. -/
def BlockDecipher.upd (D : List ℕ → List ℕ) (chain : Bool) (s : ChainState)
    (inb : List ℕ) : List ℕ × ChainState :=
  if chain then
    (xorBlock (D inb) s.prev, ⟨inb⟩)
  else
    (D inb, s)

/-- `BlockCipher.prototype._final`: PKCS#7-pad the `bpos` buffered bytes
(`block.fill(left, bpos, bs)` on a copy of the block) and run the padded
block through `_update`; afterwards `prev` is reset to empty. -/
def BlockCipher.fin (E : List ℕ → List ℕ) (chain : Bool) (bs : ℕ)
    (st : CipherState ChainState) : Except String (List ℕ) × ChainState :=
  let p := st.bpos.getD 0
  let pad := bs - p
  let blk := st.block.take p ++ List.replicate pad pad
  (.ok (BlockCipher.upd E chain st.m blk).1, ⟨[]⟩)

/-- `BlockDecipher.prototype._final`: validate PKCS#7 padding on the
held-back output `this.last` and return it minus the padding; `prev` is
reset to empty first. -/
def BlockDecipher.fin (bs : ℕ) (st : CipherState ChainState) :
    Except String (List ℕ) × ChainState :=
  if st.last.length = 0 then (.error "Bad decrypt (no data).", ⟨[]⟩)
  else if st.bpos ≠ some 0 then (.error "Bad decrypt (trailing bytes).", ⟨[]⟩)
  else
    let blk := st.last
    let start := blk.length - bs
    let pad := blk.getLastD 0
    if pad = 0 ∨ bs < pad then (.error "Bad decrypt (padding).", ⟨[]⟩)
    else if ¬ ((blk.drop (blk.length - pad)).all (fun x => x = pad)) then
      (.error "Bad decrypt (padding).", ⟨[]⟩)
    else (.ok ((blk.drop start).take (blk.length - pad - start)), ⟨[]⟩)

/-- Mode state of `CTR`: the counter block `this.ctr` (the scratch
keystream buffer `this.state` is rewritten before every read and carries
no information between calls). -/
structure CtrState where
  ctr : List ℕ

/-- Little-endian byte increment, helper for `ctrIncrement`. -/
def incLE : List ℕ → List ℕ
  | [] => []
  | x :: xs => if x ≠ 255 then (x + 1) :: xs else 0 :: incLE xs

/-- `CTR.prototype._increment`: big-endian counter increment with wrap
(255 becomes 0 with carry into the next more significant byte). -/
def ctrIncrement (l : List ℕ) : List ℕ :=
  (incLE l.reverse).reverse

/-- `CTR.prototype._update`: encrypt the counter, increment it, XOR with
the input block. -/
def CTR.upd (E : List ℕ → List ℕ) (s : CtrState) (inb : List ℕ) :
    List ℕ × CtrState :=
  let ks := E s.ctr
  (xorBlock inb ks, ⟨ctrIncrement s.ctr⟩)

/-- `CTR.prototype._final`: XOR the `bpos` buffered bytes with one more
keystream block; the counter is zeroed and dropped. -/
def CTR.fin (E : List ℕ → List ℕ) (st : CipherState CtrState) :
    Except String (List ℕ) × CtrState :=
  let ks := E st.m.ctr
  let p := st.bpos.getD 0
  (.ok (xorBlock (st.block.take p) (ks.take p)), ⟨[]⟩)

/-- Mode state of `CFB`: the feedback block `this.prev`. -/
structure FbState where
  prev : List ℕ

/-- `CFB.prototype._update`: keystream is `E(prev)`; on encrypt the next
feedback block is the output, on decrypt it is the input. -/
def CFB.upd (E : List ℕ → List ℕ) (encrypt : Bool) (s : FbState)
    (inb : List ℕ) : List ℕ × FbState :=
  let ks := E s.prev
  let o := xorBlock inb ks
  (o, ⟨if encrypt then o else inb⟩)

/-- `CFB.prototype._final`: like CTR, XOR the buffered bytes with
`E(prev)`. -/
def CFB.fin (E : List ℕ → List ℕ) (st : CipherState FbState) :
    Except String (List ℕ) × FbState :=
  let ks := E st.m.prev
  let p := st.bpos.getD 0
  (.ok (xorBlock (st.block.take p) (ks.take p)), ⟨[]⟩)

/-- Mode state of `OFB`: the rolling keystream block `this.state`. -/
structure OfbState where
  state : List ℕ

/-- `OFB.prototype._update`: roll the state with `E`, XOR with the
input block. -/
def OFB.upd (E : List ℕ → List ℕ) (s : OfbState) (inb : List ℕ) :
    List ℕ × OfbState :=
  let st1 := E s.state
  (xorBlock inb st1, ⟨st1⟩)

/-- `OFB.prototype._final`: roll the state once more and XOR the buffered
bytes with it. -/
def OFB.fin (E : List ℕ → List ℕ) (st : CipherState OfbState) :
    Except String (List ℕ) × OfbState :=
  let st1 := E st.m.state
  let p := st.bpos.getD 0
  (.ok (xorBlock (st.block.take p) (st1.take p)), ⟨[]⟩)

/-- `Cipher.prototype.init` specialised with `BlockCipher._init` /
`BlockDecipher._init`: `ctx.init(key)` makes the context live, `bpos`
becomes 0, and the IV is asserted empty for ECB and one block for CBC.
The fresh `Buffer.allocUnsafe(blockSize)` buffer is modelled as zeros. -/
def BlockMode.init (chain : Bool) (bs : ℕ) (iv : List ℕ) :
    Except String (CipherState ChainState) :=
  if chain then
    if iv.length = bs then .ok ⟨true, List.replicate bs 0, some 0, [], ⟨iv⟩⟩
    else .error "Assertion failed."
  else
    if iv.length = 0 then .ok ⟨true, List.replicate bs 0, some 0, [], ⟨iv⟩⟩
    else .error "Assertion failed."

/-- `Cipher.prototype.init` specialised with `CTR._init`. -/
def CTR.init (bs : ℕ) (iv : List ℕ) : Except String (CipherState CtrState) :=
  if iv.length = bs then .ok ⟨true, List.replicate bs 0, some 0, [], ⟨iv⟩⟩
  else .error "Assertion failed."

/-- `Cipher.prototype.init` specialised with `CFB._init`. -/
def CFB.init (bs : ℕ) (iv : List ℕ) : Except String (CipherState FbState) :=
  if iv.length = bs then .ok ⟨true, List.replicate bs 0, some 0, [], ⟨iv⟩⟩
  else .error "Assertion failed."

/-- `Cipher.prototype.init` specialised with `OFB._init`. -/
def OFB.init (bs : ℕ) (iv : List ℕ) : Except String (CipherState OfbState) :=
  if iv.length = bs then .ok ⟨true, List.replicate bs 0, some 0, [], ⟨iv⟩⟩
  else .error "Assertion failed."

/-- Drive a mode object as its callers do: feed each chunk through
`update`, then call `final`, and return the concatenation of everything
the caller receives. -/
def runChunks {σ : Type} (upd : σ → List ℕ → List ℕ × σ) (padding : Bool)
    (bs : ℕ) (fin : CipherState σ → Except String (List ℕ) × σ) :
    List (List ℕ) → CipherState σ → Except String (List ℕ)
  | [], st =>
    match Cipher.final fin st with
    | (.ok out, _) => .ok out
    | (.error e, _) => .error e
  | c :: cs, st =>
    match Cipher.update upd padding bs st c with
    | .error e => .error e
    | .ok (out, st1) =>
      match runChunks upd padding bs fin cs st1 with
      | .error e => .error e
      | .ok rest => .ok (out ++ rest)

/-- The classes the `get(name, encrypt)` dispatcher can return. -/
inductive ModeClass
  | ecbCipher | ecbDecipher | cbcCipher | cbcDecipher
  | ctrCipher | ctrDecipher | cfbCipher | cfbDecipher
  | ofbCipher | ofbDecipher
deriving DecidableEq

/-- The `get(name, encrypt)` dispatcher at the bottom of modes.js:
a `switch` on the exact strings `'ecb'`/`'ECB'`, …, defaulting to
`throw new Error('Unknown mode: ...')`. -/
def Modes.get (name : String) (encrypt : Bool) : Except String ModeClass :=
  if name = "ecb" ∨ name = "ECB" then
    .ok (if encrypt then .ecbCipher else .ecbDecipher)
  else if name = "cbc" ∨ name = "CBC" then
    .ok (if encrypt then .cbcCipher else .cbcDecipher)
  else if name = "ctr" ∨ name = "CTR" then
    .ok (if encrypt then .ctrCipher else .ctrDecipher)
  else if name = "cfb" ∨ name = "CFB" then
    .ok (if encrypt then .cfbCipher else .cfbDecipher)
  else if name = "ofb" ∨ name = "OFB" then
    .ok (if encrypt then .ofbCipher else .ofbDecipher)
  else .error ("Unknown mode: " ++ name ++ ".")

/-!
Part 2: the EdDSA engine of `lib/js/eddsa.js` and the Schnorr engine of
schnorr.js.  Both are generic over an abstract point group `Pt` and a
facade record holding the operations the engines consume; repository code
that is not among the sources (the curve library, bn.js, the hash, the
CSPRNG) is modelled from the spec as the facade fields and as explicit
parameters for random draws.
-/

/-- Modelled from the spec: `BN.prototype.finvm` of bn.js (outside the
sources) — the Fermat inverse `b⁻¹ ≡ b^(n-2) (mod n)`, computed by modular
exponentiation rather than EGCD. -/
def finvm (b n : ℕ) : ℕ :=
  b ^ (n - 2) % n

/-- The blinded signature scalar computed by both `EDDSA.signWithScalar`
and `Schnorr.sign`:
`s := ((r·b mod n + (h·b·a mod n)) mod n · b⁻¹) mod n`
(`iumod` of bn.js is Nat `%`; `ha`/`ea` is the inner product). -/
def blindedS (n r h a b : ℕ) : ℕ :=
  let bi := finvm b n
  let ha := h * b % n * a % n
  (r * b % n + ha) % n * bi % n

/-- Modelled from the spec: the Edwards-curve facade of `lib/js/curves`
consumed by eddsa.js (the curve library is outside the sources).  `Pt` is
the point group; `mul` and `mulBlind` both compute the scalar multiple
`k • P` (blinding only randomizes the internal representation); `add` is
`+`, `dbl P` is `P + P`, `eq` is decidable equality.  Byte encodings,
`splitHash` and the hash (`hashStream` maps the byte stream fed to
`update` to the integer `BN.decode(final(2·size), endian)`) stay abstract
functions on byte-list values. -/
structure EdFacade (Pt : Type) [AddCommMonoid Pt] [DecidableEq Pt] where
  g : Pt
  n : ℕ
  size : ℕ
  scalarLength : ℕ
  hc : ℕ
  context : Bool
  prefixBytes : List ℕ
  encodePoint : Pt → List ℕ
  decodePoint : List ℕ → Option Pt
  decodeScalar : List ℕ → ℕ
  encodeScalar : ℕ → List ℕ
  decodeInt : List ℕ → ℕ
  encodeInt : ℕ → List ℕ
  splitHash : List ℕ → List ℕ × List ℕ
  digest : List ℕ → ℕ → List ℕ
  hashStream : List ℕ → ℕ
  isClamped : List ℕ → Bool
  clampBytes : List ℕ → List ℕ

/-- The pre-hash flag byte of `hashInt` (`SLAB[0] = ph & 0xff`; in JS
`null & 0xff` is 0). -/
def phByte : Option Bool → ℕ
  | some true => 1
  | _ => 0

/-- The context bytes of `hashInt`: a length byte followed by the context,
or a single zero byte when no context is given. -/
def ctxBytes : Option (List ℕ) → List ℕ
  | some c => c.length :: c
  | none => [0]

/-- `assert(!ctx || ctx.length <= 255)` of `hashInt`/`verify`. -/
def ctxLenOk : Option (List ℕ) → Bool
  | some c => decide (c.length ≤ 255)
  | none => true

section EdDefs

variable {Pt : Type} [AddCommMonoid Pt] [DecidableEq Pt]

/-- The integer value produced by `EDDSA.prototype.hashInt`: the domain
prefix, flag byte and context bytes are fed first when the curve has a
context or `ph` was passed, then the items, and the final hash is decoded
and reduced `mod n`. -/
def EDDSA.hashIntVal (F : EdFacade Pt) (ph : Option Bool)
    (ctx : Option (List ℕ)) (items : List (List ℕ)) : ℕ :=
  if F.context = true ∨ ph ≠ none then
    F.hashStream (F.prefixBytes ++ [phByte ph] ++ ctxBytes ctx ++ items.flatten) % F.n
  else
    F.hashStream items.flatten % F.n

/-- `EDDSA.prototype.hashInt` with its two asserts: the context length
bound, and `assert(ctx == null, 'Must pass pre-hash flag with context.')`
when the curve has no context and `ph` is null. -/
def EDDSA.hashInt (F : EdFacade Pt) (ph : Option Bool)
    (ctx : Option (List ℕ)) (items : List (List ℕ)) : Except String ℕ :=
  if ctxLenOk ctx = true then
    if F.context = true ∨ ph ≠ none then .ok (EDDSA.hashIntVal F ph ctx items)
    else if ctx = none then .ok (EDDSA.hashIntVal F ph ctx items)
    else .error "Must pass pre-hash flag with context."
  else .error "Assertion failed."

/-- `EDDSA.prototype.hashKey`: assert the seed length and expand it to
`2·size` bytes with the one-shot hash. -/
def EDDSA.hashKey (F : EdFacade Pt) (secret : List ℕ) :
    Except String (List ℕ) :=
  if secret.length = F.size then .ok (F.digest secret (2 * F.size))
  else .error "Assertion failed."

/-- `EDDSA.prototype.privateKeyConvert`: the scalar half of the split
expanded seed. -/
def EDDSA.privateKeyConvert (F : EdFacade Pt) (secret : List ℕ) :
    Except String (List ℕ) :=
  match EDDSA.hashKey F secret with
  | .error e => .error e
  | .ok hk => .ok (F.splitHash hk).1

/-- `EDDSA.prototype.publicKeyFromScalar`:
`encode(mulBlind(g, decodeScalar(scalar) mod n))`. -/
def EDDSA.publicKeyFromScalar (F : EdFacade Pt) (scalar : List ℕ) :
    List ℕ :=
  F.encodePoint ((F.decodeScalar scalar % F.n) • F.g)

/-- `EDDSA.prototype.publicKeyCreate`. -/
def EDDSA.publicKeyCreate (F : EdFacade Pt) (secret : List ℕ) :
    Except String (List ℕ) :=
  match EDDSA.privateKeyConvert F secret with
  | .error e => .error e
  | .ok key => .ok (EDDSA.publicKeyFromScalar F key)

/-- `EDDSA.prototype.scalarVerify`: the curve clamp predicate. -/
def EDDSA.scalarVerify (F : EdFacade Pt) (scalar : List ℕ) : Bool :=
  F.isClamped scalar

/-- `EDDSA.prototype.signWithScalar`.  The blinding factor
`b = BN.random(rng, 1, N)` is an explicit parameter (the CSPRNG is outside
the sources). -/
def EDDSA.signWithScalar (F : EdFacade Pt) (msg scalar nonce : List ℕ)
    (ph : Option Bool) (ctx : Option (List ℕ)) (b : ℕ) :
    Except String (List ℕ) :=
  if nonce.length = F.size then
    match EDDSA.hashInt F ph ctx [nonce, msg] with
    | .error e => .error e
    | .ok r =>
      match EDDSA.hashInt F ph ctx
          [F.encodePoint (r • F.g),
           F.encodePoint (F.decodeScalar scalar • F.g), msg] with
      | .error e => .error e
      | .ok h =>
        .ok (F.encodePoint (r • F.g)
          ++ F.encodeInt (blindedS F.n r h (F.decodeScalar scalar) b))
  else .error "Assertion failed."

/-- `EDDSA.prototype.sign`: expand the seed, split it into scalar and
nonce, and delegate to `signWithScalar`. -/
def EDDSA.sign (F : EdFacade Pt) (msg secret : List ℕ) (ph : Option Bool)
    (ctx : Option (List ℕ)) (b : ℕ) : Except String (List ℕ) :=
  match EDDSA.hashKey F secret with
  | .error e => .error e
  | .ok hk =>
    EDDSA.signWithScalar F msg (F.splitHash hk).1 (F.splitHash hk).2 ph ctx b

/-- The cofactor-clearing loop of `_verify`: double both sides `hc`
times. -/
def dblTimes : ℕ → Pt → Pt
  | 0, P => P
  | k + 1, P => dblTimes k (P + P)

/-- `EDDSA.prototype._verify`: decode `R`, `S` and `A` (a decoding failure
throws, modelled as `.error`), reject `S ≥ n`, hash, and compare
`[S]·G` with `R + [h]·A` after `hc` doublings of both sides. -/
def EDDSA._verify (F : EdFacade Pt) (msg sig key : List ℕ)
    (ph : Option Bool) (ctx : Option (List ℕ)) : Except String Bool :=
  match F.decodePoint (sig.take F.size) with
  | none => .error "Invalid point."
  | some R =>
    match F.decodePoint key with
    | none => .error "Invalid point."
    | some A =>
      if F.n ≤ F.decodeInt (sig.drop F.size) then .ok false
      else
        match EDDSA.hashInt F ph ctx [sig.take F.size, key, msg] with
        | .error e => .error e
        | .ok h =>
          .ok (decide (dblTimes F.hc (F.decodeInt (sig.drop F.size) • F.g)
            = dblTimes F.hc (R + h • A)))

/-- `try { ... } catch (e) { return false; }` around the verification
cores. -/
def tryBool : Except String Bool → Bool
  | .ok b => b
  | .error _ => false

/-- `EDDSA.prototype.verify`: the two argument asserts raise; wrong
signature or key length returns false; everything `_verify` throws is
caught and returned as false. -/
def EDDSA.verify (F : EdFacade Pt) (msg sig key : List ℕ)
    (ph : Option Bool) (ctx : Option (List ℕ)) : Except String Bool :=
  if ctxLenOk ctx = true then
    if F.context = false ∧ ctx ≠ none ∧ ph = none then
      .error "Must pass pre-hash flag with context."
    else if sig.length ≠ 2 * F.size then .ok false
    else if key.length ≠ F.size then .ok false
    else .ok (tryBool (EDDSA._verify F msg sig key ph ctx))
  else .error "Assertion failed."

/-- The accumulator loop of `EDDSA.prototype._batchVerify`; `rnds`
supplies the `BN.random(rng, 1, N)` draws for the entries after the
first, and the accumulator holds `(lhs, rhs)` once the first entry is
processed.  `R.mulAdd(a, A, ae)` is the fused `[a]·R + [ae]·A`. -/
def EDDSA.batchLoop (F : EdFacade Pt) (ph : Option Bool)
    (ctx : Option (List ℕ)) :
    List (List ℕ × List ℕ × List ℕ) → List ℕ → Option (ℕ × Pt) →
    Except String Bool
  | [], _, none => .ok true
  | [], _, some acc => .ok (decide (acc.1 • F.g = acc.2))
  | (msg, sig, key) :: rest, rnds, acc =>
    let Rraw := sig.take F.size
    let Sraw := sig.drop F.size
    match F.decodePoint Rraw with
    | none => .error "Invalid point."
    | some R =>
      let S := F.decodeInt Sraw
      match F.decodePoint key with
      | none => .error "Invalid point."
      | some A =>
        if F.n ≤ S then .ok false
        else
          match EDDSA.hashInt F ph ctx [Rraw, key, msg] with
          | .error e => .error e
          | .ok e1 =>
            match acc with
            | none => EDDSA.batchLoop F ph ctx rest rnds (some (S, R + e1 • A))
            | some lr =>
              let a := rnds.headD 1
              let ae := a * e1 % F.n
              EDDSA.batchLoop F ph ctx rest (rnds.drop 1)
                (some ((lr.1 + a * S) % F.n, lr.2 + (a • R + ae • A)))

/-- `EDDSA.prototype._batchVerify`. -/
def EDDSA._batchVerify (F : EdFacade Pt) (batch : List (List ℕ × List ℕ × List ℕ))
    (ph : Option Bool) (ctx : Option (List ℕ)) (rnds : List ℕ) :
    Except String Bool :=
  EDDSA.batchLoop F ph ctx batch rnds none

/-- `EDDSA.prototype.batchVerify`: argument asserts, per-entry length
checks returning false, and a catch-all around `_batchVerify`. -/
def EDDSA.batchVerify (F : EdFacade Pt)
    (batch : List (List ℕ × List ℕ × List ℕ)) (ph : Option Bool)
    (ctx : Option (List ℕ)) (rnds : List ℕ) : Except String Bool :=
  if ctxLenOk ctx = true then
    if F.context = false ∧ ctx ≠ none ∧ ph = none then
      .error "Must pass pre-hash flag with context."
    else if batch.any (fun t =>
        decide (t.2.1.length ≠ 2 * F.size) || decide (t.2.2.length ≠ F.size)) then
      .ok false
    else .ok (tryBool (EDDSA._batchVerify F batch ph ctx rnds))
  else .error "Assertion failed."

end EdDefs

/-- A store of JS `Buffer`s (buffer id ↦ byte contents), used to state
frame properties: which buffer a method mutates and which it returns. -/
structure BufStore where
  bufs : List (List ℕ)

/-- Read a buffer from the store. -/
def readBufs : List (List ℕ) → ℕ → List ℕ
  | [], _ => []
  | v :: _, 0 => v
  | _ :: rest, r + 1 => readBufs rest r

/-- Overwrite a buffer in the store. -/
def writeBufs : List (List ℕ) → ℕ → List ℕ → List (List ℕ)
  | [], _, _ => []
  | _ :: rest, 0, w => w :: rest
  | v :: rest, r + 1, w => v :: writeBufs rest r w

/-- Read a buffer. -/
def BufStore.read (s : BufStore) (r : ℕ) : List ℕ :=
  readBufs s.bufs r

/-- Overwrite a buffer in place. -/
def BufStore.write (s : BufStore) (r : ℕ) (v : List ℕ) : BufStore :=
  ⟨writeBufs s.bufs r v⟩

/-- `Buffer.from(x)`: allocate a fresh buffer holding a copy of `x`;
returns the new store and the fresh reference. -/
def BufStore.alloc (s : BufStore) (v : List ℕ) : BufStore × ℕ :=
  (⟨s.bufs ++ [v]⟩, s.bufs.length)

section EdRefDefs

variable {Pt : Type} [AddCommMonoid Pt] [DecidableEq Pt]

/-- Modelled from the spec: `curve.clamp(scalar)` of the curve library
(outside the sources) clamps the buffer in place by bit-masking and
returns the same reference; the new contents are `F.clampBytes` of the
old. -/
def EDDSA.clampRef (F : EdFacade Pt) (s : BufStore) (r : ℕ) :
    BufStore × ℕ :=
  (s.write r (F.clampBytes (s.read r)), r)

/-- `EDDSA.prototype.scalarClamp` over the buffer store: assert the
length; if the scalar fails `scalarVerify`, rebind the local to a
`Buffer.from` copy and clamp that copy; return the local. -/
def EDDSA.scalarClampRef (F : EdFacade Pt) (s : BufStore) (r : ℕ) :
    Except String (BufStore × ℕ) :=
  if (s.read r).length = F.scalarLength then
    if EDDSA.scalarVerify F (s.read r) = true then .ok (s, r)
    else
      let a1 := s.alloc (s.read r)
      .ok (EDDSA.clampRef F a1.1 a1.2)
  else .error "Assertion failed."

end EdRefDefs

/-- Modelled from the spec: the short-Weierstrass curve facade consumed by
schnorr.js (the curve library is outside the sources).  `mul`/`mulBlind`
are `k • P`, `mulAdd s1 P2 s2` is the fused `s1 • P + s2 • P2`, `add` is
`+`; `wa`/`wb` are the Weierstrass coefficients as field residues,
`redSqrt` the modular square root `c^((p+1)/4) mod p`, `point x y` the
point constructor, `jacobi` the Jacobi symbol of bn.js. -/
structure WeiFacade (Pt : Type) [AddCommMonoid Pt] [DecidableEq Pt] where
  g : Pt
  n : ℕ
  p : ℕ
  size : ℕ
  wa : ℕ
  wb : ℕ
  hashSize : ℕ
  hashStream : List ℕ → ℕ
  decodePoint : List ℕ → Option Pt
  encodePoint : Pt → List ℕ
  decodeInt : List ℕ → ℕ
  decodeScalar : List ℕ → ℕ
  encodeInt : ℕ → List ℕ
  encodeScalar : ℕ → List ℕ
  getX : Pt → ℕ
  getY : Pt → ℕ
  jacobi : ℕ → ℕ → Int
  isInf : Pt → Bool
  redSqrt : ℕ → ℕ
  point : ℕ → ℕ → Pt

section SchnorrDefs

variable {Pt : Type} [AddCommMonoid Pt] [DecidableEq Pt]

/-- `Schnorr.prototype.hashInt`: hash the items in order and reduce the
decoded digest `mod n`. -/
def Schnorr.hashInt (SF : WeiFacade Pt) (items : List (List ℕ)) : ℕ :=
  SF.hashStream items.flatten % SF.n

/-- `R = [k']·G` of `Schnorr.sign`, with `k' = H(key ‖ msg) mod n`. -/
def Schnorr.Rpoint (SF : WeiFacade Pt) (msg key : List ℕ) : Pt :=
  Schnorr.hashInt SF [key, msg] • SF.g

/-- `bytes(x(R))` of `Schnorr.sign`. -/
def Schnorr.rRaw (SF : WeiFacade Pt) (msg key : List ℕ) : List ℕ :=
  SF.encodeInt (SF.getX (Schnorr.Rpoint SF msg key))

/-- The nonce of `Schnorr.sign` after the y-canonicalization:
`k` when `jacobi(y(R), p) = 1`, else `n - k`. -/
def Schnorr.kSigned (SF : WeiFacade Pt) (msg key : List ℕ) : ℕ :=
  if SF.jacobi (SF.getY (Schnorr.Rpoint SF msg key)) SF.p ≠ 1 then
    SF.n - Schnorr.hashInt SF [key, msg]
  else Schnorr.hashInt SF [key, msg]

/-- `e = H(bytes(x(R)) ‖ bytes(d·G) ‖ m) mod n` of `Schnorr.sign`. -/
def Schnorr.eVal (SF : WeiFacade Pt) (msg key : List ℕ) : ℕ :=
  Schnorr.hashInt SF
    [Schnorr.rRaw SF msg key, SF.encodePoint (SF.decodeScalar key • SF.g), msg]

/-- `Schnorr.prototype.sign` (BIP-340 style).  The blinding factor
`b = BN.random(rng, 1, N)` is an explicit parameter. -/
def Schnorr.sign (SF : WeiFacade Pt) (msg key : List ℕ) (b : ℕ) :
    Except String (List ℕ) :=
  if msg.length = SF.hashSize ∧ key.length = SF.size then
    if Schnorr.hashInt SF [key, msg] = 0 then .error "Signing failed (k = 0)."
    else if SF.decodeScalar key = 0 ∨ SF.n ≤ SF.decodeScalar key then
      .error "Invalid private key."
    else
      .ok (Schnorr.rRaw SF msg key
        ++ SF.encodeScalar (blindedS SF.n (Schnorr.kSigned SF msg key)
            (Schnorr.eVal SF msg key) (SF.decodeScalar key) b))
  else .error "Assertion failed."

/-- `Schnorr.prototype._verify`. -/
def Schnorr._verify (SF : WeiFacade Pt) (msg sig key : List ℕ) :
    Except String Bool :=
  if msg.length ≠ SF.hashSize then .ok false
  else if sig.length ≠ 2 * SF.size then .ok false
  else
    match SF.decodePoint key with
    | none => .error "Invalid point."
    | some A =>
      let Rraw := sig.take SF.size
      let Sraw := sig.drop SF.size
      let Rx := SF.decodeInt Rraw
      let S := SF.decodeScalar Sraw
      if SF.p ≤ Rx ∨ SF.n ≤ S then .ok false
      else
        let e := Schnorr.hashInt SF [Rraw, SF.encodePoint A, msg]
        let R := S • SF.g + (SF.n - e) • A
        if SF.isInf R = true then .ok false
        else if SF.jacobi (SF.getY R) SF.p ≠ 1 then .ok false
        else if SF.getX R ≠ Rx then .ok false
        else .ok true

/-- `Schnorr.prototype.verify`: a catch-all around `_verify`. -/
def Schnorr.verify (SF : WeiFacade Pt) (msg sig key : List ℕ) :
    Except String Bool :=
  .ok (tryBool (Schnorr._verify SF msg sig key))

/-- The accumulator loop of `Schnorr.prototype._batchVerify`: reconstruct
each `R` from its x coordinate via `redSqrt`, validate `y² ≡ x³+ax+b`,
and fold the random linear combination. -/
def Schnorr.batchLoop (SF : WeiFacade Pt) :
    List (List ℕ × List ℕ × List ℕ) → List ℕ → Option (ℕ × Pt) →
    Except String Bool
  | [], _, none => .ok true
  | [], _, some acc => .ok (decide (acc.1 • SF.g = acc.2))
  | (msg, sig, key) :: rest, rnds, acc =>
    match SF.decodePoint key with
    | none => .error "Invalid point."
    | some A =>
      let Rraw := sig.take SF.size
      let Sraw := sig.drop SF.size
      let Rx := SF.decodeInt Rraw
      let S := SF.decodeScalar Sraw
      if SF.p ≤ Rx ∨ SF.n ≤ S then .ok false
      else
        let e := Schnorr.hashInt SF [Rraw, SF.encodePoint A, msg]
        let ra := Rx * SF.wa % SF.p
        let c := (((Rx * Rx % SF.p) * Rx % SF.p + ra) % SF.p + SF.wb) % SF.p
        let y := SF.redSqrt c
        if c ≠ y * y % SF.p then .ok false
        else
          let R := SF.point Rx y
          match acc with
          | none => Schnorr.batchLoop SF rest rnds (some (S, R + e • A))
          | some lr =>
            let a := rnds.headD 1
            let ae := a * e % SF.n
            Schnorr.batchLoop SF rest (rnds.drop 1)
              (some ((lr.1 + a * S) % SF.n, lr.2 + (a • R + ae • A)))

/-- `Schnorr.prototype._batchVerify`. -/
def Schnorr._batchVerify (SF : WeiFacade Pt)
    (batch : List (List ℕ × List ℕ × List ℕ)) (rnds : List ℕ) :
    Except String Bool :=
  Schnorr.batchLoop SF batch rnds none

/-- `Schnorr.prototype.batchVerify`: per-entry length checks returning
false, and a catch-all around `_batchVerify`. -/
def Schnorr.batchVerify (SF : WeiFacade Pt)
    (batch : List (List ℕ × List ℕ × List ℕ)) (rnds : List ℕ) :
    Except String Bool :=
  if batch.any (fun t =>
      decide (t.1.length ≠ SF.hashSize) || decide (t.2.1.length ≠ 2 * SF.size)) then
    .ok false
  else .ok (tryBool (Schnorr._batchVerify SF batch rnds))

end SchnorrDefs

/-- A concrete Edwards facade over the group `ZMod 5` (generator 1, prime
order 5, one-byte encodings, cofactor-log 1), used to witness the
facade-contract hypotheses of the theorems below. -/
def edP : EdFacade (ZMod 5) where
  g := 1
  n := 5
  size := 1
  scalarLength := 1
  hc := 1
  context := false
  prefixBytes := []
  encodePoint := fun P => [P.val]
  decodePoint := fun l =>
    match l with
    | [x] => if x < 5 then some ((x : ZMod 5)) else none
    | _ => none
  decodeScalar := fun l => l.headD 0
  encodeScalar := fun x => [x % 256]
  decodeInt := fun l => l.headD 0
  encodeInt := fun x => [x % 256]
  splitHash := fun h => ([h.headD 0], [h.getD 1 0])
  digest := fun s len => [s.sum % 5, (s.sum + len) % 5]
  hashStream := fun l => l.sum
  isClamped := fun l => decide (l = [4])
  clampBytes := fun l => l.map (fun _ => 4)

/-- A concrete Weierstrass facade over the group `ZMod 5`, used to witness
the Schnorr statements. -/
def schP : WeiFacade (ZMod 5) where
  g := 1
  n := 5
  p := 7
  size := 1
  wa := 0
  wb := 0
  hashSize := 1
  hashStream := fun l => l.sum
  decodePoint := fun l =>
    match l with
    | [x] => if x < 5 then some ((x : ZMod 5)) else none
    | _ => none
  encodePoint := fun P => [P.val]
  decodeInt := fun l => l.headD 0
  decodeScalar := fun l => l.headD 0
  encodeInt := fun x => [x % 256]
  encodeScalar := fun x => [x % 256]
  getX := fun P => P.val
  getY := fun P => P.val
  jacobi := fun _ _ => 1
  isInf := fun _ => false
  redSqrt := fun c => c
  point := fun x _ => (x : ZMod 5)

/-- C7: whenever `bpos = -1` (modelled as `none`), both `update` and
`final` fail with "Cipher not initialized."; and every `final` call on an
initialized mode object — whatever its `_final` hook returns, including a
padding-validation failure — leaves the underlying cipher context
destroyed, the block buffer all-zero and `bpos = -1`. -/
theorem cipher_lifecycle_invariant {σ : Type}
    (upd : σ → List ℕ → List ℕ × σ) (padding : Bool) (bs : ℕ)
    (fin : CipherState σ → Except String (List ℕ) × σ)
    (st : CipherState σ) (input : List ℕ) :
    (st.bpos = none →
      Cipher.update upd padding bs st input = .error "Cipher not initialized." ∧
      (Cipher.final fin st).1 = .error "Cipher not initialized." ∧
      (Cipher.final fin st).2 = st) ∧
    (st.bpos ≠ none →
      (Cipher.final fin st).2.ctxAlive = false ∧
      (∀ x ∈ (Cipher.final fin st).2.block, x = 0) ∧
      (Cipher.final fin st).2.bpos = none) := by
  obtain ⟨ca, blk, bp, ls, mm⟩ := st
  constructor
  · intro h
    simp only at h
    subst h
    exact ⟨rfl, rfl, rfl⟩
  · intro h
    cases bp with
    | none => exact absurd rfl h
    | some p =>
      refine ⟨rfl, ?_, rfl⟩
      intro x hx
      simp only [Cipher.final, List.mem_map] at hx
      obtain ⟨a, -, ha⟩ := hx
      exact ha.symm

/-- Witness for C7 at concrete states. -/
theorem cipher_lifecycle_invariant_witness :
    (Cipher.update (fun (s : Unit) b => (b, s)) false 2
        ⟨true, [5, 6], none, [], ()⟩ [1] = .error "Cipher not initialized.") ∧
    ((Cipher.final (fun _ => (.error "Bad decrypt (padding).", ()))
        ⟨true, [5, 6], some 0, [], ()⟩).2.ctxAlive = false ∧
      (∀ x ∈ (Cipher.final (fun _ => (.error "Bad decrypt (padding).", ()))
        ⟨true, [5, 6], some 0, [], ()⟩).2.block, x = 0) ∧
      (Cipher.final (fun _ => (.error "Bad decrypt (padding).", ()))
        ⟨true, [5, 6], some 0, [], ()⟩).2.bpos = none) :=
  ⟨((cipher_lifecycle_invariant (fun (s : Unit) b => (b, s)) false 2
      (fun _ => (.error "Bad decrypt (padding).", ()))
      ⟨true, [5, 6], none, [], ()⟩ [1]).1 rfl).1,
    (cipher_lifecycle_invariant (fun (s : Unit) b => (b, s)) false 2
      (fun _ => (.error "Bad decrypt (padding).", ()))
      ⟨true, [5, 6], some 0, [], ()⟩ [1]).2 (by decide)⟩

/-- C9 counterexample: the claim promises case-insensitive resolution,
but the mixed-case spelling `"Ecb"` hits the `switch` default and fails. -/
theorem get_mixed_case_fails :
    Modes.get "Ecb" true = .error "Unknown mode: Ecb." := rfl

/-- C9 (amended): `get` resolves exactly the all-lowercase and
all-uppercase spellings of the five mode names — to the cipher class when
`encrypt` is true and the decipher class otherwise — and fails with
"Unknown mode" on every other string, mixed-case spellings included. -/
theorem get_resolves_exact_case (encrypt : Bool) :
    (Modes.get "ecb" encrypt = .ok (if encrypt then .ecbCipher else .ecbDecipher)) ∧
    (Modes.get "ECB" encrypt = .ok (if encrypt then .ecbCipher else .ecbDecipher)) ∧
    (Modes.get "cbc" encrypt = .ok (if encrypt then .cbcCipher else .cbcDecipher)) ∧
    (Modes.get "CBC" encrypt = .ok (if encrypt then .cbcCipher else .cbcDecipher)) ∧
    (Modes.get "ctr" encrypt = .ok (if encrypt then .ctrCipher else .ctrDecipher)) ∧
    (Modes.get "CTR" encrypt = .ok (if encrypt then .ctrCipher else .ctrDecipher)) ∧
    (Modes.get "cfb" encrypt = .ok (if encrypt then .cfbCipher else .cfbDecipher)) ∧
    (Modes.get "CFB" encrypt = .ok (if encrypt then .cfbCipher else .cfbDecipher)) ∧
    (Modes.get "ofb" encrypt = .ok (if encrypt then .ofbCipher else .ofbDecipher)) ∧
    (Modes.get "OFB" encrypt = .ok (if encrypt then .ofbCipher else .ofbDecipher)) ∧
    (∀ name : String,
      name ∉ (["ecb", "ECB", "cbc", "CBC", "ctr", "CTR", "cfb", "CFB",
               "ofb", "OFB"] : List String) →
      Modes.get name encrypt = .error ("Unknown mode: " ++ name ++ ".")) := by
  refine ⟨by cases encrypt <;> rfl, by cases encrypt <;> rfl,
    by cases encrypt <;> rfl, by cases encrypt <;> rfl,
    by cases encrypt <;> rfl, by cases encrypt <;> rfl,
    by cases encrypt <;> rfl, by cases encrypt <;> rfl,
    by cases encrypt <;> rfl, by cases encrypt <;> rfl, ?_⟩
  intro name hname
  simp only [List.mem_cons, List.not_mem_nil, or_false, not_or] at hname
  obtain ⟨h1, h2, h3, h4, h5, h6, h7, h8, h9, h10⟩ := hname
  simp [Modes.get, h1, h2, h3, h4, h5, h6, h7, h8, h9, h10]

/-- Witness for C9 at concrete inputs. -/
theorem get_resolves_exact_case_witness :
    Modes.get "CFB" false = .ok ModeClass.cfbDecipher ∧
    Modes.get "xyz" false = .error "Unknown mode: xyz." :=
  ⟨(get_resolves_exact_case false).2.2.2.2.2.2.2.1,
    (get_resolves_exact_case false).2.2.2.2.2.2.2.2.2.2 "xyz" (by decide)⟩

/-- C2: with the identity single-block cipher at block size 2 over ECB,
encrypting `[1, 2, 3, 4]` in one update yields `[1, 2, 3, 4, 2, 2]`, and
decrypting that ciphertext in a single update round-trips; but feeding the
very same ciphertext to the decipher as three 2-byte updates emits nothing
at all — each `update` overwrites the held-back block in `this.last`
without ever returning it — so the round trip of the claim fails for
chunked decryption. -/
theorem cipher_roundtrip_chunked_fails :
    (BlockMode.init false 2 [] = .ok ⟨true, [0, 0], some 0, [], ⟨[]⟩⟩) ∧
    (runChunks (BlockCipher.upd (fun l => l) false) false 2
        (BlockCipher.fin (fun l => l) false 2) [[1, 2, 3, 4]]
        ⟨true, [0, 0], some 0, [], ⟨[]⟩⟩ = .ok [1, 2, 3, 4, 2, 2]) ∧
    (runChunks (BlockDecipher.upd (fun l => l) false) true 2
        (BlockDecipher.fin 2) [[1, 2, 3, 4, 2, 2]]
        ⟨true, [0, 0], some 0, [], ⟨[]⟩⟩ = .ok [1, 2, 3, 4]) ∧
    (runChunks (BlockDecipher.upd (fun l => l) false) true 2
        (BlockDecipher.fin 2) [[1, 2], [3, 4], [2, 2]]
        ⟨true, [0, 0], some 0, [], ⟨[]⟩⟩ = .ok []) := by
  refine ⟨rfl, rfl, rfl, rfl⟩

/-- C6: with the identity single-block cipher at block size 2, feeding an
ECB encryptor the chunks `[9]` then `[8, 7]` (3 input bytes in all) emits
6 bytes in total — `update` sizes its output from the raw input length,
so completing the partial buffer makes it return a block of uninitialized
bytes — while the claim demands `ceil((3+1)/2)·2 = 4`; the CTR run over
the same chunks emits 5 bytes where the claim demands 3. -/
theorem cipher_output_length_bug :
    (runChunks (BlockCipher.upd (fun l => l) false) false 2
        (BlockCipher.fin (fun l => l) false 2) [[9], [8, 7]]
        ⟨true, [0, 0], some 0, [], ⟨[]⟩⟩ = .ok [9, 8, 0, 0, 7, 1]) ∧
    ([9, 8, 0, 0, 7, 1].length = 6 ∧ (3 + 1 + 2 - 1) / 2 * 2 = 4) ∧
    (runChunks (CTR.upd (fun l => l)) false 2 (CTR.fin (fun l => l))
        [[9], [8, 7]] ⟨true, [0, 0], some 0, [], ⟨[0, 0]⟩⟩
      = .ok [9, 8, 0, 0, 7]) ∧
    ([9, 8, 0, 0, 7].length ≠ 3) := by
  refine ⟨rfl, ⟨rfl, rfl⟩, rfl, by decide⟩

/-! Helper lemmas shared by the signature theorems. -/

/-- Taking the length of the left part of an append returns it. -/
theorem take_len_append (l1 l2 : List ℕ) (n : ℕ) (h : l1.length = n) :
    (l1 ++ l2).take n = l1 := by
  subst h
  exact List.take_left l1 l2

/-- Dropping the length of the left part of an append returns the right
part. -/
theorem drop_len_append (l1 l2 : List ℕ) (n : ℕ) (h : l1.length = n) :
    (l1 ++ l2).drop n = l2 := by
  subst h
  exact List.drop_left l1 l2

/-- A scalar may be reduced mod the group order before multiplying a point
killed by that order. -/
theorem nsmul_mod_eq {M : Type} [AddCommMonoid M] (g : M) (n : ℕ)
    (h : n • g = 0) (k : ℕ) : (k % n) • g = k • g := by
  conv_rhs => rw [← Nat.div_add_mod k n]
  rw [add_nsmul, mul_nsmul, h, smul_zero, zero_add]

/-- The scalar blinding cancels: for prime `p` and `b ∈ [1, p)`, the
blinded expression computed by the signing code equals `(r + h·a) mod p`. -/
theorem blindedS_eq (p r h a b : ℕ) (hp : p.Prime) (hb1 : 1 ≤ b)
    (hbp : b < p) : blindedS p r h a b = (r + h * a) % p := by
  haveI : Fact p.Prime := ⟨hp⟩
  haveI : NeZero p := ⟨hp.pos.ne'⟩
  show (r * b % p + (h * b % p * a % p)) % p * (b ^ (p - 2) % p) % p
      = (r + h * a) % p
  have m3 : h * b % p * a % p ≡ h * b * a [MOD p] :=
    (Nat.mod_modEq _ _).trans ((Nat.mod_modEq (h * b) p).mul_right a)
  have m5 : (r * b % p + (h * b % p * a % p)) % p ≡ r * b + h * b * a [MOD p] :=
    (Nat.mod_modEq _ _).trans ((Nat.mod_modEq (r * b) p).add m3)
  have step1 : (r * b % p + (h * b % p * a % p)) % p * (b ^ (p - 2) % p)
      ≡ (r * b + h * b * a) * b ^ (p - 2) [MOD p] :=
    m5.mul (Nat.mod_modEq _ _)
  have hbne : (b : ZMod p) ≠ 0 := by
    intro h0
    have hv := ZMod.val_cast_of_lt hbp
    rw [h0] at hv
    simp at hv
    omega
  have hinv : (b : ZMod p) * (b : ZMod p) ^ (p - 2) = 1 := by
    rw [← pow_succ']
    have h2 : p - 2 + 1 = p - 1 := by
      have := hp.two_le
      omega
    rw [h2, ZMod.pow_card_sub_one_eq_one hbne]
  have step2 : (r * b + h * b * a) * b ^ (p - 2) ≡ r + h * a [MOD p] := by
    have hc : (((r * b + h * b * a) * b ^ (p - 2) : ℕ) : ZMod p)
        = ((r + h * a : ℕ) : ZMod p) := by
      push_cast
      calc ((r : ZMod p) * b + h * b * a) * (b : ZMod p) ^ (p - 2)
          = ((r : ZMod p) + h * a) * ((b : ZMod p) * (b : ZMod p) ^ (p - 2)) := by
            ring
        _ = (r : ZMod p) + h * a := by rw [hinv, mul_one]
    exact (ZMod.natCast_eq_natCast_iff _ _ _).mp hc
  exact step1.trans step2

/-- The blinded scalar is reduced below the modulus. -/
theorem blindedS_lt (n r h a b : ℕ) (hn : 0 < n) :
    blindedS n r h a b < n :=
  Nat.mod_lt _ hn

/-- When its asserts pass, `hashInt` succeeds with `hashIntVal`. -/
theorem hashInt_ok {Pt : Type} [AddCommMonoid Pt] [DecidableEq Pt]
    (F : EdFacade Pt) (ph : Option Bool) (ctx : Option (List ℕ))
    (hctx : ctxLenOk ctx = true)
    (hcond : F.context = true ∨ ctx = none ∨ ph ≠ none)
    (items : List (List ℕ)) :
    EDDSA.hashInt F ph ctx items = .ok (EDDSA.hashIntVal F ph ctx items) := by
  unfold EDDSA.hashInt
  rw [if_pos hctx]
  by_cases h1 : F.context = true ∨ ph ≠ none
  · rw [if_pos h1]
  · rw [if_neg h1]
    have hcn : ctx = none := by
      rcases hcond with h | h | h
      · exact absurd (Or.inl h) h1
      · exact h
      · exact absurd (Or.inr h) h1
    rw [if_pos hcn]

/-- The `!curve.context && ctx != null → ph != null` assert of
`verify`/`batchVerify` passes under the hashInt precondition. -/
theorem verify_assert_ok {Pt : Type} [AddCommMonoid Pt] [DecidableEq Pt]
    (F : EdFacade Pt) (ph : Option Bool) (ctx : Option (List ℕ))
    (hcond : F.context = true ∨ ctx = none ∨ ph ≠ none) :
    ¬(F.context = false ∧ ctx ≠ none ∧ ph = none) := by
  rintro ⟨h1, h2, h3⟩
  rcases hcond with h | h | h
  · rw [h] at h1
    exact Bool.noConfusion h1
  · exact h2 h
  · exact h h3

/-- `_verify` never returns true once the decoded `S` reaches `n`: it
either errors on point decoding or returns false at the range check. -/
theorem verifyCore_stops_on_large_S {Pt : Type} [AddCommMonoid Pt]
    [DecidableEq Pt] (F : EdFacade Pt) (msg sig key : List ℕ)
    (ph : Option Bool) (ctx : Option (List ℕ))
    (hS : F.n ≤ F.decodeInt (sig.drop F.size)) :
    EDDSA._verify F msg sig key ph ctx = .ok false ∨
    ∃ e, EDDSA._verify F msg sig key ph ctx = .error e := by
  unfold EDDSA._verify
  cases F.decodePoint (sig.take F.size) with
  | none => exact Or.inr ⟨_, rfl⟩
  | some R =>
    cases F.decodePoint key with
    | none => exact Or.inr ⟨_, rfl⟩
    | some A =>
      exact Or.inl (if_pos hS)

/-- `verify` returns false (never raises) whenever the trailing bytes of
the signature decode to `S ≥ n`. -/
theorem verify_false_of_large_S {Pt : Type} [AddCommMonoid Pt]
    [DecidableEq Pt] (F : EdFacade Pt) (msg sig key : List ℕ)
    (ph : Option Bool) (ctx : Option (List ℕ))
    (hctx : ctxLenOk ctx = true)
    (hcond : F.context = true ∨ ctx = none ∨ ph ≠ none)
    (hS : F.n ≤ F.decodeInt (sig.drop F.size)) :
    EDDSA.verify F msg sig key ph ctx = .ok false := by
  unfold EDDSA.verify
  rw [if_pos hctx, if_neg (verify_assert_ok F ph ctx hcond)]
  by_cases h1 : sig.length ≠ 2 * F.size
  · rw [if_pos h1]
  · rw [if_neg h1]
    by_cases h2 : key.length ≠ F.size
    · rw [if_pos h2]
    · rw [if_neg h2]
      rcases verifyCore_stops_on_large_S F msg sig key ph ctx hS with h | ⟨e, h⟩
      · rw [h]
        rfl
      · rw [h]
        rfl

/-- C4: for a prime group order `N` and any blinding factor `b ∈ [1, N)`,
the blinded computation `((r·b mod n + (h·b·a mod n)) mod n · b⁻¹) mod n`
equals the unblinded `(r + h·a) mod n`; consequently the signatures
emitted by `EDDSA.signWithScalar` and `Schnorr.sign` do not depend on
which blinding factor was drawn. -/
theorem blinded_scalar_eq_unblinded {Pt Pt2 : Type}
    [AddCommMonoid Pt] [DecidableEq Pt] [AddCommMonoid Pt2] [DecidableEq Pt2]
    (F : EdFacade Pt) (SF : WeiFacade Pt2) (N b b2 : ℕ)
    (hp : N.Prime) (hb1 : 1 ≤ b) (hbN : b < N) (hc1 : 1 ≤ b2)
    (hcN : b2 < N) :
    (∀ r h a, blindedS N r h a b = (r + h * a) % N) ∧
    (F.n = N → ∀ msg scalar nonce ph ctx,
      EDDSA.signWithScalar F msg scalar nonce ph ctx b
        = EDDSA.signWithScalar F msg scalar nonce ph ctx b2) ∧
    (SF.n = N → ∀ msg key,
      Schnorr.sign SF msg key b = Schnorr.sign SF msg key b2) := by
  have hid : ∀ r h a, blindedS N r h a b = (r + h * a) % N :=
    fun r h a => blindedS_eq N r h a b hp hb1 hbN
  have hid2 : ∀ r h a, blindedS N r h a b2 = (r + h * a) % N :=
    fun r h a => blindedS_eq N r h a b2 hp hc1 hcN
  refine ⟨hid, ?_, ?_⟩
  · intro hF msg scalar nonce ph ctx
    subst hF
    simp only [EDDSA.signWithScalar, hid, hid2]
  · intro hS msg key
    subst hS
    simp only [Schnorr.sign, hid, hid2]

/-- Witness for C4 at the concrete facades, modulus 5 and blinding
factors 2 and 3. -/
theorem blinded_scalar_eq_unblinded_witness :
    blindedS 5 3 4 2 2 = (3 + 4 * 2) % 5 ∧
    EDDSA.signWithScalar edP [9] [7] [4] none none 2
      = EDDSA.signWithScalar edP [9] [7] [4] none none 3 ∧
    Schnorr.sign schP [9] [7] 2 = Schnorr.sign schP [9] [7] 3 := by
  have h := blinded_scalar_eq_unblinded edP schP 5 2 3 (by norm_num)
    (by norm_num) (by norm_num) (by norm_num) (by norm_num)
  exact ⟨h.1 3 4 2, h.2.1 rfl [9] [7] [4] none none, h.2.2 rfl [9] [7]⟩

/-- C8: the empty batch verifies true, for both the EdDSA and the Schnorr
batch verifier. -/
theorem empty_batch_verifies {Pt Pt2 : Type}
    [AddCommMonoid Pt] [DecidableEq Pt] [AddCommMonoid Pt2] [DecidableEq Pt2]
    (F : EdFacade Pt) (SF : WeiFacade Pt2) (ph : Option Bool)
    (ctx : Option (List ℕ)) (rnds rnds2 : List ℕ)
    (hctx : ctxLenOk ctx = true)
    (hcond : F.context = true ∨ ctx = none ∨ ph ≠ none) :
    EDDSA.batchVerify F [] ph ctx rnds = .ok true ∧
    Schnorr.batchVerify SF [] rnds2 = .ok true := by
  constructor
  · unfold EDDSA.batchVerify
    rw [if_pos hctx, if_neg (verify_assert_ok F ph ctx hcond)]
    rfl
  · rfl

/-- Witness for C8 at the concrete facades. -/
theorem empty_batch_verifies_witness :
    EDDSA.batchVerify edP [] none none [] = .ok true ∧
    Schnorr.batchVerify schP [] [] = .ok true :=
  empty_batch_verifies edP schP none none [] [] rfl (Or.inr (Or.inl rfl))

/-- C3: under the hashInt precondition on `ph`/`ctx`, EdDSA `verify` and
`batchVerify` always return an `.ok` boolean (every facade error is
caught), wrong signature or key lengths give `.ok false`; Schnorr
`verify` always returns an `.ok` boolean, and a wrong signature length
gives `.ok false`. -/
theorem verify_never_raises {Pt Pt2 : Type}
    [AddCommMonoid Pt] [DecidableEq Pt] [AddCommMonoid Pt2] [DecidableEq Pt2]
    (F : EdFacade Pt) (SF : WeiFacade Pt2) (ph : Option Bool)
    (ctx : Option (List ℕ))
    (hctx : ctxLenOk ctx = true)
    (hcond : F.context = true ∨ ctx = none ∨ ph ≠ none) :
    (∀ msg sig key, ∃ bv, EDDSA.verify F msg sig key ph ctx = .ok bv) ∧
    (∀ msg sig key, sig.length ≠ 2 * F.size ∨ key.length ≠ F.size →
      EDDSA.verify F msg sig key ph ctx = .ok false) ∧
    (∀ batch rnds, ∃ bv, EDDSA.batchVerify F batch ph ctx rnds = .ok bv) ∧
    (∀ msg sig key, ∃ bv, Schnorr.verify SF msg sig key = .ok bv) ∧
    (∀ msg sig key, sig.length ≠ 2 * SF.size →
      Schnorr.verify SF msg sig key = .ok false) := by
  refine ⟨?_, ?_, ?_, ?_, ?_⟩
  · intro msg sig key
    unfold EDDSA.verify
    rw [if_pos hctx, if_neg (verify_assert_ok F ph ctx hcond)]
    by_cases h1 : sig.length ≠ 2 * F.size
    · exact ⟨false, by rw [if_pos h1]⟩
    · rw [if_neg h1]
      by_cases h2 : key.length ≠ F.size
      · exact ⟨false, by rw [if_pos h2]⟩
      · rw [if_neg h2]
        exact ⟨_, rfl⟩
  · intro msg sig key hlen
    unfold EDDSA.verify
    rw [if_pos hctx, if_neg (verify_assert_ok F ph ctx hcond)]
    rcases hlen with h | h
    · rw [if_pos h]
    · by_cases h1 : sig.length ≠ 2 * F.size
      · rw [if_pos h1]
      · rw [if_neg h1, if_pos h]
  · intro batch rnds
    unfold EDDSA.batchVerify
    rw [if_pos hctx, if_neg (verify_assert_ok F ph ctx hcond)]
    by_cases h1 : (batch.any fun t =>
        decide (t.2.1.length ≠ 2 * F.size) || decide (t.2.2.length ≠ F.size)) = true
    · exact ⟨false, by rw [if_pos h1]⟩
    · rw [if_neg h1]
      exact ⟨_, rfl⟩
  · intro msg sig key
    exact ⟨_, rfl⟩
  · intro msg sig key h
    unfold Schnorr.verify
    have hv : tryBool (Schnorr._verify SF msg sig key) = false := by
      unfold Schnorr._verify
      by_cases hm : msg.length ≠ SF.hashSize
      · rw [if_pos hm]
        rfl
      · rw [if_neg hm, if_pos h]
        rfl
    rw [hv]

/-- Witness for C3 at the concrete facades. -/
theorem verify_never_raises_witness :
    (∃ bv, EDDSA.verify edP [1] [2] [3] none none = .ok bv) ∧
    (EDDSA.verify edP [1] [2, 2, 2] [3] none none = .ok false) ∧
    (∃ bv, EDDSA.batchVerify edP [([1], [2], [3])] none none [] = .ok bv) ∧
    (∃ bv, Schnorr.verify schP [1] [2] [3] = .ok bv) ∧
    (Schnorr.verify schP [1] [2, 2, 2] [3] = .ok false) := by
  have h := verify_never_raises edP schP none none rfl (Or.inr (Or.inl rfl))
  exact ⟨h.1 [1] [2] [3], h.2.1 [1] [2, 2, 2] [3] (Or.inl (by decide)),
    h.2.2.1 [([1], [2], [3])] [], h.2.2.2.1 [1] [2] [3],
    h.2.2.2.2 [1] [2, 2, 2] [3] (by decide)⟩

/-- C5: EdDSA `verify` rejects non-reduced `S`: whenever the trailing
`size` bytes of the signature decode to `S ≥ n`, it returns false; in
particular, splicing `encodeInt (S₀ + n)` as the second half of any
`2·size`-byte signature (same encoded length) makes `verify` return
false. -/
theorem verify_rejects_large_S {Pt : Type} [AddCommMonoid Pt]
    [DecidableEq Pt] (F : EdFacade Pt) (msg sig key : List ℕ)
    (ph : Option Bool) (ctx : Option (List ℕ))
    (hctx : ctxLenOk ctx = true)
    (hcond : F.context = true ∨ ctx = none ∨ ph ≠ none)
    (hS : F.n ≤ F.decodeInt (sig.drop F.size)) :
    EDDSA.verify F msg sig key ph ctx = .ok false ∧
    (∀ (S0 : ℕ) (sg : List ℕ), sg.length = 2 * F.size →
      F.decodeInt (F.encodeInt (S0 + F.n)) = S0 + F.n →
      EDDSA.verify F msg (sg.take F.size ++ F.encodeInt (S0 + F.n)) key ph ctx
        = .ok false) := by
  constructor
  · exact verify_false_of_large_S F msg sig key ph ctx hctx hcond hS
  · intro S0 sg hsg hdec
    apply verify_false_of_large_S F msg _ key ph ctx hctx hcond
    have hlen : (sg.take F.size).length = F.size := by
      rw [List.length_take, hsg]
      omega
    rw [drop_len_append _ _ _ hlen, hdec]
    exact Nat.le_add_left F.n S0

/-- Witness for C5 at the concrete facade: `[0, 7]` carries `S = 7 ≥ 5`,
and splicing `S₀ + n = 6` into `[3, 3]` is also rejected. -/
theorem verify_rejects_large_S_witness :
    EDDSA.verify edP [9] [0, 7] [0] none none = .ok false ∧
    EDDSA.verify edP [9] ([3, 3].take edP.size ++ edP.encodeInt (1 + edP.n))
      [0] none none = .ok false := by
  have h := verify_rejects_large_S edP [9] [0, 7] [0] none none rfl
    (Or.inr (Or.inl rfl)) (by decide)
  exact ⟨h.1, h.2 1 [3, 3] (by decide) (by decide)⟩

/-- C1: a signature freshly produced by `sign` verifies under the matching
`publicKeyCreate` public key, for every facade satisfying the curve
contract (prime group order killing the base point, encode/decode
round-trips, fixed-size encodings), every valid secret, any message and
any `ph`/`ctx` meeting the hashInt precondition, and whatever blinding
factor in `[1, n)` was drawn. -/
theorem eddsa_sign_verify_roundtrip {Pt : Type} [AddCommMonoid Pt]
    [DecidableEq Pt] (F : EdFacade Pt) (msg secret : List ℕ)
    (ph : Option Bool) (ctx : Option (List ℕ)) (b : ℕ)
    (hsec : secret.length = F.size)
    (hctx : ctxLenOk ctx = true)
    (hcond : F.context = true ∨ ctx = none ∨ ph ≠ none)
    (hnonce : ((F.splitHash (F.digest secret (2 * F.size))).2).length = F.size)
    (hp : F.n.Prime)
    (hb1 : 1 ≤ b) (hbn : b < F.n)
    (hord : F.n • F.g = 0)
    (hde : ∀ P : Pt, F.decodePoint (F.encodePoint P) = some P)
    (hlenP : ∀ P : Pt, (F.encodePoint P).length = F.size)
    (hlenI : ∀ x : ℕ, (F.encodeInt x).length = F.size)
    (hdi : ∀ x : ℕ, x < F.n → F.decodeInt (F.encodeInt x) = x) :
    ∀ sig pub, EDDSA.sign F msg secret ph ctx b = .ok sig →
      EDDSA.publicKeyCreate F secret = .ok pub →
      EDDSA.verify F msg sig pub ph ctx = .ok true := by
  intro sig pub hsig hpub
  have hn0 : 0 < F.n := hp.pos
  have hHI : ∀ items, EDDSA.hashInt F ph ctx items
      = .ok (EDDSA.hashIntVal F ph ctx items) :=
    fun items => hashInt_ok F ph ctx hctx hcond items
  -- evaluate the signature
  simp only [EDDSA.sign, EDDSA.hashKey, if_pos hsec, EDDSA.signWithScalar,
    if_pos hnonce, hHI] at hsig
  rw [Except.ok.injEq] at hsig
  subst hsig
  -- evaluate the public key; `publicKeyFromScalar` reduces its scalar
  -- mod n, which does not change the point
  simp only [EDDSA.publicKeyCreate, EDDSA.privateKeyConvert, EDDSA.hashKey,
    if_pos hsec, EDDSA.publicKeyFromScalar,
    nsmul_mod_eq F.g F.n hord] at hpub
  rw [Except.ok.injEq] at hpub
  subst hpub
  -- generic consequences of the facade contract
  have htk : ∀ (P : Pt) (y : ℕ),
      (F.encodePoint P ++ F.encodeInt y).take F.size = F.encodePoint P :=
    fun P y => take_len_append _ _ _ (hlenP P)
  have hdr : ∀ (P : Pt) (y : ℕ),
      (F.encodePoint P ++ F.encodeInt y).drop F.size = F.encodeInt y :=
    fun P y => drop_len_append _ _ _ (hlenP P)
  have hsl : ∀ (P : Pt) (y : ℕ),
      (F.encodePoint P ++ F.encodeInt y).length = 2 * F.size := by
    intro P y
    rw [List.length_append, hlenP, hlenI]
    omega
  have hdS : ∀ rr hh aa,
      F.decodeInt (F.encodeInt (blindedS F.n rr hh aa b))
        = blindedS F.n rr hh aa b :=
    fun rr hh aa => hdi _ (blindedS_lt F.n rr hh aa b hn0)
  have hkeyEq : ∀ rr hh aa,
      blindedS F.n rr hh aa b • F.g = rr • F.g + hh • (aa • F.g) := by
    intro rr hh aa
    rw [blindedS_eq F.n rr hh aa b hp hb1 hbn, nsmul_mod_eq F.g F.n hord,
      add_nsmul, mul_nsmul']
  -- evaluate the verification
  unfold EDDSA.verify
  rw [if_pos hctx, if_neg (verify_assert_ok F ph ctx hcond),
    if_neg (not_ne_iff.mpr (hsl _ _)), if_neg (not_ne_iff.mpr (hlenP _))]
  simp only [EDDSA._verify, htk, hdr, hde, hHI, hdS]
  rw [if_neg (not_le.mpr (blindedS_lt F.n _ _ _ b hn0))]
  rw [hkeyEq]
  simp [tryBool]

/-- Witness for C1 at the concrete facade: secret `[7]`, message `[9]`,
blinding factor 1 produce the signature `[3, 1]` and public key `[2]`,
which verify. -/
theorem eddsa_sign_verify_roundtrip_witness :
    EDDSA.verify edP [9] [3, 1] [2] none none = .ok true :=
  eddsa_sign_verify_roundtrip edP [9] [7] none none 1 (by decide) rfl
    (Or.inr (Or.inl rfl)) (by decide) (by decide) (by decide) (by decide)
    (by decide) (by decide) (by decide) (fun _ => rfl) (by decide)
    [3, 1] [2] rfl rfl

/-- Reading below the end of a store is unaffected by appending. -/
theorem readBufs_append_lt : ∀ (l : List (List ℕ)) (v : List ℕ) (r : ℕ),
    r < l.length → readBufs (l ++ [v]) r = readBufs l r
  | [], _, _, h => by simp at h
  | _ :: _, _, 0, _ => rfl
  | _ :: rest, v, r + 1, h => by
    simp only [List.cons_append, readBufs]
    exact readBufs_append_lt rest v r (by simpa using h)

/-- Reading the appended slot returns the appended buffer. -/
theorem readBufs_append_self : ∀ (l : List (List ℕ)) (v : List ℕ),
    readBufs (l ++ [v]) l.length = v
  | [], _ => rfl
  | _ :: rest, v => readBufs_append_self rest v

/-- Writing one slot leaves the others unchanged. -/
theorem readBufs_write_ne : ∀ (l : List (List ℕ)) (i j : ℕ) (w : List ℕ),
    i ≠ j → readBufs (writeBufs l i w) j = readBufs l j
  | [], _, _, _, _ => rfl
  | _ :: _, 0, 0, _, h => absurd rfl h
  | _ :: _, 0, _ + 1, _, _ => rfl
  | _ :: _, _ + 1, 0, _, _ => rfl
  | _ :: rest, i + 1, j + 1, w, h => by
    simp only [writeBufs, readBufs]
    exact readBufs_write_ne rest i j w (by omega)

/-- Reading back an in-range write returns the written contents. -/
theorem readBufs_write_self : ∀ (l : List (List ℕ)) (i : ℕ) (w : List ℕ),
    i < l.length → readBufs (writeBufs l i w) i = w
  | [], _, _, h => by simp at h
  | _ :: _, 0, _, _ => rfl
  | _ :: rest, i + 1, w, h => readBufs_write_self rest i w (by simpa using h)

/-- C10: `scalarClamp` never mutates its argument buffer: after the call
the argument holds exactly its old bytes.  When the scalar is already
clamped the argument buffer itself is returned (same reference, store
untouched); otherwise a fresh copy is clamped and returned. -/
theorem scalarClamp_preserves_argument {Pt : Type} [AddCommMonoid Pt]
    [DecidableEq Pt] (F : EdFacade Pt) (s : BufStore) (r : ℕ)
    (hr : r < s.bufs.length)
    (hlen : (s.read r).length = F.scalarLength) :
    ∃ s1 r1, EDDSA.scalarClampRef F s r = .ok (s1, r1) ∧
      s1.read r = s.read r ∧
      (EDDSA.scalarVerify F (s.read r) = true → s1 = s ∧ r1 = r) ∧
      (EDDSA.scalarVerify F (s.read r) = false →
        r1 ≠ r ∧ s1.read r1 = F.clampBytes (s.read r)) := by
  unfold EDDSA.scalarClampRef
  rw [if_pos hlen]
  by_cases hv : EDDSA.scalarVerify F (s.read r) = true
  · rw [if_pos hv]
    exact ⟨s, r, rfl, rfl, fun _ => ⟨rfl, rfl⟩,
      fun hf => absurd hf (by rw [hv]; exact Bool.noConfusion)⟩
  · rw [if_neg hv]
    refine ⟨_, _, rfl, ?_, fun ht => absurd ht hv, fun _ => ⟨?_, ?_⟩⟩
    · show readBufs (writeBufs (s.bufs ++ [s.read r]) s.bufs.length
          (F.clampBytes (readBufs (s.bufs ++ [s.read r]) s.bufs.length))) r
        = s.read r
      rw [readBufs_write_ne _ _ _ _ (by omega), readBufs_append_lt _ _ _ hr]
      rfl
    · show s.bufs.length ≠ r
      omega
    · show readBufs (writeBufs (s.bufs ++ [s.read r]) s.bufs.length
          (F.clampBytes (readBufs (s.bufs ++ [s.read r]) s.bufs.length)))
          s.bufs.length
        = F.clampBytes (s.read r)
      rw [readBufs_write_self _ _ _ (by simp), readBufs_append_self]

/-- Witness for C10 at the concrete facade: the unclamped one-byte scalar
`[3]` in a one-buffer store. -/
theorem scalarClamp_preserves_argument_witness :
    ∃ s1 r1, EDDSA.scalarClampRef edP ⟨[[3]]⟩ 0 = .ok (s1, r1) ∧
      BufStore.read s1 0 = BufStore.read ⟨[[3]]⟩ 0 ∧
      (EDDSA.scalarVerify edP (BufStore.read ⟨[[3]]⟩ 0) = true →
        s1 = ⟨[[3]]⟩ ∧ r1 = 0) ∧
      (EDDSA.scalarVerify edP (BufStore.read ⟨[[3]]⟩ 0) = false →
        r1 ≠ 0 ∧ BufStore.read s1 r1 = edP.clampBytes (BufStore.read ⟨[[3]]⟩ 0)) :=
  scalarClamp_preserves_argument edP ⟨[[3]]⟩ 0 (by decide) (by decide)
